import Mathlib

/-
Verification of the pulp_puppet repository core: the install distributor
(installdistributor.py), the metadata extractor (metadata.py) and the
publish pipeline (publish.py), shallowly embedded over Lean lists.

Python strings are modelled as lists of characters (PyStr).  The POSIX
path functions used by the source (os.path.join, os.path.normpath,
str.split, str.startswith, str.endswith) are translated from the
Python 2.7 posixpath implementations.
-/

namespace PulpPuppet

/-- Python strings, modelled as lists of characters. -/
abbrev PyStr := List Char

/-- Model of s.startswith(p) for Python strings. -/
def pyStartsWith (s p : PyStr) : Bool := p.isPrefixOf s

/-- Model of s.endswith(p) for Python strings. -/
def pyEndsWith (s p : PyStr) : Bool := p.isSuffixOf s

/-- The idiom `if not destination.endswith(sep): destination += sep` used at
installdistributor.py lines 224-225 and 288-289. -/
def withSlash (d : PyStr) : PyStr :=
  if pyEndsWith d "/".data then d else d ++ "/".data

/-- Model of str.split with separator `/` (Python keeps empty pieces:
splitting "a//b" gives ["a", "", "b"], splitting "" gives [""]). -/
def pySplit : PyStr → List PyStr
  | [] => [[]]
  | c :: rest =>
    if c = '/' then [] :: pySplit rest
    else
      match pySplit rest with
      | [] => [[c]]
      | h :: t => (c :: h) :: t

/-- Model of sep.join(pieces) with separator `/`. -/
def slashJoin : List PyStr → PyStr
  | [] => []
  | [c] => c
  | c :: rest => c ++ "/".data ++ slashJoin rest

/-- Model of Python 2.7 posixpath.join for two arguments: an absolute second
argument replaces the first, otherwise a separator is inserted unless the
first part is empty or already ends with one. -/
def pyJoin (a b : PyStr) : PyStr :=
  if pyStartsWith b "/".data then b
  else if a = [] ∨ pyEndsWith a "/".data then a ++ b
  else a ++ "/".data ++ b

/-- One step of the component-normalisation loop inside posixpath.normpath:
empty components and "." are dropped, ".." pops the previous component
except at an (absolute) root or after an unpopped "..". -/
def normpathFold (initialSlashes : Nat) (acc : List PyStr) (comp : PyStr) : List PyStr :=
  if comp = [] ∨ comp = ".".data then acc
  else if comp ≠ "..".data ∨ (initialSlashes = 0 ∧ acc = []) ∨
          (acc ≠ [] ∧ acc.getLast? = some "..".data) then acc ++ [comp]
  else if acc ≠ [] then acc.dropLast
  else acc

/-- The initial_slashes computation of posixpath.normpath: POSIX allows
one or two initial slashes; three or more are treated as one. -/
def initialSlashes (path : PyStr) : Nat :=
  if pyStartsWith path "/".data then
    if pyStartsWith path "//".data ∧ ¬ pyStartsWith path "///".data then 2 else 1
  else 0

/-- Model of Python 2.7 posixpath.normpath: empty path becomes ".",
leading slashes are preserved per initialSlashes, components are
normalised and rejoined; an empty result is ".". -/
def pyNormpath (path : PyStr) : PyStr :=
  if path = [] then ".".data
  else
    let newComps := (pySplit path).foldl (normpathFold (initialSlashes path)) []
    let result := List.replicate (initialSlashes path) '/' ++ slashJoin newComps
    if result = [] then ".".data else result

/-- Total length of components plus one separator slot each. -/
def msum (cs : List PyStr) : Nat := (cs.map (fun c => c.length + 1)).sum

/-
Embedding of installdistributor.py
(pulp_puppet/plugins/distributors/installdistributor.py).

A content unit is modelled by its unit key together with the observable
behaviour of its stored tarball: `archive = none` means tarfile.open
raises (OSError or IOError), `archive = some names` gives the list
returned by archive.getnames(); `extractFails` means archive.extractall
raises during the staged extraction.  Filesystem modifications are
recorded as a trace of FsOp values.
-/

/-- Identity of a content unit (unit_key). -/
structure UnitKey where
  author : PyStr
  name : PyStr
  version : PyStr
  deriving DecidableEq, Repr

/-- A content unit presented to the install distributor. -/
structure PuppetUnit where
  key : UnitKey
  archive : Option (List PyStr)
  extractFails : Bool
  deriving DecidableEq, Repr

/-- ERROR_MESSAGE_PATH from installdistributor.py line 28. -/
def ERROR_MESSAGE_PATH : PyStr :=
  "one or more units contains a path outside its base extraction path".data

/-- Error message recorded at line 106 for units with colliding names. -/
def duplicateNameMessage : PyStr :=
  "another unit in this repo also has this name".data

/-- Stand-in for str(e) when tarfile.open raises at lines 262 or 126. -/
def openErrorMessage : PyStr := "could not open tarball".data

/-- Stand-in for str(e) when archive.extractall raises at line 128. -/
def extractErrorMessage : PyStr := "extraction failed".data

/-- ValueError message raised by _rename_directory at line 230. -/
def tooManyMessage : PyStr := "too many directories extracted".data

/-- Lines 286-292: the body of _archive_paths_are_safe.  The loop mutates
the local destination variable, appending a trailing slash (after the join
of the current entry but before its startswith check), and returns False
at the first entry whose normalized join does not keep the destination
prefix. -/
def archivePathsAreSafe (destination : PyStr) (names : List PyStr) : Bool :=
  match names with
  | [] => true
  | name :: rest =>
    let result := pyNormpath (pyJoin destination name)
    let destination := withSlash destination
    if pyStartsWith result destination then archivePathsAreSafe destination rest
    else false

/-- The per-entry safety predicate as the spec words it: the normalized
absolute join of the entry against the destination is still textually
prefixed by the destination with a trailing separator. -/
def safeEntry (destination name : PyStr) : Bool :=
  pyStartsWith (pyNormpath (pyJoin destination name)) (withSlash destination)

/-- Lines 192-204: units counted per name; a unit is a duplicate when its
name occurs in at least two units of the run. -/
def findDuplicateNames (units : List PuppetUnit) : List PuppetUnit :=
  units.filter
    (fun u => 2 ≤ (units.filter (fun v => v.key.name = u.key.name)).length)

/-- Lines 246-269: _check_for_unsafe_archive_paths collects one error per
unit whose tarball cannot be opened or whose entry list fails
_archive_paths_are_safe. -/
def checkForUnsafeArchivePaths (units : List PuppetUnit) (destination : PyStr) :
    List (UnitKey × PyStr) :=
  units.foldl
    (fun errs u =>
      match u.archive with
      | none => errs ++ [(u.key, openErrorMessage)]
      | some names =>
        if archivePathsAreSafe destination names then errs
        else errs ++ [(u.key, ERROR_MESSAGE_PATH)])
    []

/-- Outcome of _rename_directory (lines 206-235): either a shutil.move of
the extracted top-level directory onto the unit name, or nothing when the
two normalized paths already coincide, or the ValueError of line 230. -/
inductive RenameResult
  | moved (before after : PyStr)
  | inPlace
  | tooMany
  deriving DecidableEq, Repr

/-- Line 228: the first path component of a name after the join against
the slash-terminated destination is sliced off and split. -/
def topComponent (destination : PyStr) (name : PyStr) : PyStr :=
  ((pySplit ((pyJoin destination name).drop destination.length)).headD [])

/-- The last path component of a path (basename, for slashless names). -/
def lastComponent (p : PyStr) : PyStr := (pySplit p).getLastD []

/-- Lines 206-235: _rename_directory.  The set built at line 228 is
modelled by deduplicating the list of top components; its pop at line 232
is the unique element when the cardinality check passed. -/
def renameDirectory (unitName destination : PyStr) (names : List PyStr) :
    RenameResult :=
  let destination := withSlash destination
  let dirNames := (names.map (topComponent destination)).dedup
  if dirNames.length ≠ 1 then RenameResult.tooMany
  else
    let before := pyNormpath (pyJoin destination (dirNames.headD []))
    let after := pyNormpath (pyJoin destination unitName)
    if before ≠ after then RenameResult.moved before after else RenameResult.inPlace

/-- Filesystem modifications performed by publish_repo, in order. -/
inductive FsOp
  | ensureDir (path : PyStr)
  | makeTempDir (tempPath : PyStr)
  | extractAll (key : UnitKey) (tempPath : PyStr)
  | moveDir (before after : PyStr)
  | clearDestination (path : PyStr)
  | moveToDestination (src dst : PyStr)
  deriving DecidableEq, Repr

/-- Outcome of a publish run: the overall flag, the summary passed to
build_failure_report or build_success_report, and the detail report. -/
structure PublishReport where
  success : Bool
  summary : PyStr
  successKeys : List UnitKey
  errors : List (UnitKey × PyStr)
  deriving DecidableEq, Repr

/-- State threaded through the extraction loop of lines 124-134. -/
structure ExtractState where
  successKeys : List UnitKey
  errors : List (UnitKey × PyStr)
  trace : List FsOp
  deriving DecidableEq, Repr

/-- One iteration of the loop at lines 124-134: open the tarball, extract
it all into the temporary destination, rename the extracted directory;
OSError, IOError and ValueError are caught and recorded per unit. -/
def extractUnitStep (tempDest : PyStr) (st : ExtractState) (u : PuppetUnit) :
    ExtractState :=
  match u.archive with
  | none => { st with errors := st.errors ++ [(u.key, openErrorMessage)] }
  | some names =>
    if u.extractFails then
      { st with
        errors := st.errors ++ [(u.key, extractErrorMessage)],
        trace := st.trace ++ [FsOp.extractAll u.key tempDest] }
    else
      match renameDirectory u.key.name tempDest names with
      | RenameResult.tooMany =>
        { st with
          errors := st.errors ++ [(u.key, tooManyMessage)],
          trace := st.trace ++ [FsOp.extractAll u.key tempDest] }
      | RenameResult.inPlace =>
        { st with
          successKeys := st.successKeys ++ [u.key],
          trace := st.trace ++ [FsOp.extractAll u.key tempDest] }
      | RenameResult.moved b a =>
        { st with
          successKeys := st.successKeys ++ [u.key],
          trace := st.trace ++ [FsOp.extractAll u.key tempDest, FsOp.moveDir b a] }

/-- Lines 78-160: publish_repo of PuppetModuleInstallDistributor.
Inputs: the configured destination (empty models a missing or falsy
install path), the path of the mkdtemp result of line 331, whether
directory creation at lines 116-117 raises OSError, and the units.
Returns the report and the trace of filesystem modifications. -/
def publishRepo (destination tempDest : PyStr) (ensureFails : Bool)
    (units : List PuppetUnit) : PublishReport × List FsOp :=
  if destination = [] then
    (⟨false, "install path not provided".data, [], []⟩, [])
  else
    let dups := findDuplicateNames units
    if dups ≠ [] then
      (⟨false, "duplicate unit names".data, [],
        dups.map (fun u => (u.key, duplicateNameMessage))⟩, [])
    else
      let unsafeErrors := checkForUnsafeArchivePaths units destination
      if unsafeErrors ≠ [] then
        (⟨false, "failed".data, [], unsafeErrors⟩, [])
      else if ensureFails then
        (⟨false, "failed to create destination directory".data, [], []⟩, [])
      else
        let st := units.foldl (extractUnitStep tempDest)
          ⟨[], [], [FsOp.ensureDir destination, FsOp.makeTempDir tempDest]⟩
        if st.errors ≠ [] then
          (⟨false, "failed publishing units".data, st.successKeys, st.errors⟩,
            st.trace)
        else
          (⟨true, "success".data, st.successKeys, st.errors⟩,
            st.trace ++ [FsOp.clearDestination destination,
                         FsOp.moveToDestination tempDest destination])

/-- Operations that modify the live destination contents: the
_clear_destination_directory and _move_to_destination_directory steps. -/
def isCommitOp : FsOp → Bool
  | FsOp.clearDestination _ => true
  | FsOp.moveToDestination _ _ => true
  | _ => false

/-- The commit operations contained in a trace. -/
def commitOps (t : List FsOp) : List FsOp := t.filter isCommitOp

/-
Embedding of metadata.py (pulp_puppet/plugins/importers/metadata.py).

A tarball is modelled by `none` when tarfile.open (or the extraction of
the whole archive at line 170, caught by the same except clause) raises,
and otherwise by the list of its file entries, each an in-archive path
paired with the contents of that file.  The parsed JSON document is
modelled by the raw contents string.
-/

/-- Modelled from the spec: constants.MODULE_METADATA_FILENAME lives in
pulp_puppet/common/constants.py, which is not under src/.  The spec calls
it the conventional descriptor filename, a fixed constant; its exact value
is immaterial to the claims. -/
def MODULE_METADATA_FILENAME : PyStr := "metadata.json".data

/-- Errors raised by the metadata extraction functions. -/
inductive ExtractionError
  | invalidTarball (moduleFilename : PyStr)
  | missingModuleFile (moduleFilename : PyStr)
  deriving DecidableEq, Repr

/-- A tarball as seen through tarfile: none when it cannot be opened,
otherwise its file entries as (in-archive path, contents) pairs. -/
abbrev Tarball := Option (List (PyStr × PyStr))

/-- CHECKSUM_READ_BUFFER_SIZE from metadata.py line 55. -/
def CHECKSUM_READ_BUFFER_SIZE : Nat := 65536

/-- The conventional in-archive descriptor path of metadata.py lines
124-126: author-name-version/descriptor-filename. -/
def standardMetadataPath (author name version : PyStr) : PyStr :=
  author ++ "-".data ++ name ++ "-".data ++ version ++ "/".data ++
    MODULE_METADATA_FILENAME

/-- Lines 113-143: _extract_json.  The conventional path is extracted
alone; any failure of tarfile.open is InvalidTarball, any failure of the
single-member extraction is MissingModuleFile, otherwise the contents are
returned. -/
def extractJson (author name version : PyStr) (tar : Tarball)
    (filename : PyStr) : Except ExtractionError PyStr :=
  let metadataFilePath := standardMetadataPath author name version
  match tar with
  | none => Except.error (ExtractionError.invalidTarball filename)
  | some entries =>
    match entries.find? (fun e => e.1 = metadataFilePath) with
    | none => Except.error (ExtractionError.missingModuleFile filename)
    | some e => Except.ok e.2

/-- Lines 209-229 applied to the tree extracted from the tarball:
_find_file_in_dir succeeds exactly when some extracted file is literally
named MODULE_METADATA_FILENAME, i.e. some entry path has that last
component; the contents of the first such entry are read. -/
def findMetadataEntry (entries : List (PyStr × PyStr)) : Option PyStr :=
  (entries.find? (fun e => (pySplit e.1).getLastD [] = MODULE_METADATA_FILENAME)).map
    (fun e => e.2)

/-- Lines 146-188: _extract_non_standard_json.  The Bool records whether
the mkdtemp directory of line 165 was removed before the call ended: the
rmtree of line 188 sits in a try/finally that starts only at line 175, so
the InvalidTarball path of lines 168-173 ends without removing it. -/
def extractNonStandardJson (tar : Tarball) (filename : PyStr) :
    Except ExtractionError PyStr × Bool :=
  match tar with
  | none => (Except.error (ExtractionError.invalidTarball filename), false)
  | some entries =>
    match findMetadataEntry entries with
    | none => (Except.error (ExtractionError.missingModuleFile filename), true)
    | some contents => (Except.ok contents, true)

/-- Lines 58-91: extract_metadata.  With no identity the fallback search
runs directly; with an identity the conventional path is tried first and
only MissingModuleFile triggers the fallback (InvalidTarball propagates).
The Option Bool is none when the fallback never ran, some b when it ran
and b records whether its temporary directory was cleaned up. -/
def extractMetadata (tar : Tarball) (filename : PyStr)
    (module : Option (PyStr × PyStr × PyStr)) :
    Except ExtractionError PyStr × Option Bool :=
  match module with
  | none =>
    let r := extractNonStandardJson tar filename
    (r.1, some r.2)
  | some (author, name, version) =>
    match extractJson author name version tar filename with
    | Except.ok contents => (Except.ok contents, none)
    | Except.error (ExtractionError.missingModuleFile _) =>
      let r := extractNonStandardJson tar filename
      (r.1, some r.2)
    | Except.error (ExtractionError.invalidTarball f) =>
      (Except.error (ExtractionError.invalidTarball f), none)

/-
Checksums.  hashlib digests are modelled abstractly: a digest value is the
pair of the algorithm name and the accumulated message, which keeps
exactly the two properties the code relies on — streaming updates
concatenate, and distinct algorithms give distinct hex digests (md5 and
sha256 digests even have different lengths).
-/

/-- Abstract model of a hashlib hex digest: algorithm plus full message. -/
structure HexDigest where
  alg : PyStr
  message : List Nat
  deriving DecidableEq, Repr

/-- Model of m.update applied to successive f.read(chunkSize) results:
the loop of metadata.py lines 105-109 and publish.py lines 306-310.
Reading in chunks accumulates the concatenation of the chunks. -/
def streamChunks (chunkSize : Nat) (data acc : List Nat) : List Nat :=
  if _hbuf : data.take chunkSize = [] then acc
  else streamChunks chunkSize (data.drop chunkSize) (acc ++ data.take chunkSize)
termination_by data.length
decreasing_by
  have hd : data.length ≠ 0 := by
    intro h0
    rw [List.length_eq_zero] at h0
    simp [h0] at _hbuf
  have hc : chunkSize ≠ 0 := by
    intro h0
    simp [h0] at _hbuf
  simp only [List.length_drop]
  omega

/-- Modelled from the spec: constants.DEFAULT_HASHLIB lives in
pulp_puppet/common/constants.py, which is not under src/.  The spec says
the default digest for general checksumming is a 256-bit cryptographic
hash, so it is modelled as sha256. -/
def DEFAULT_HASHLIB : PyStr := "sha256".data

/-- Lines 94-110 of metadata.py: calculate_checksum streams the file
through hashlib.new(DEFAULT_HASHLIB) in CHECKSUM_READ_BUFFER_SIZE
chunks. -/
def calculate_checksum (content : List Nat) : HexDigest :=
  ⟨DEFAULT_HASHLIB, streamChunks CHECKSUM_READ_BUFFER_SIZE content []⟩

/-- Lines 304-311 of publish.py: the dependency-index checksum streams the
file through hashlib.md5 in 128-byte chunks. -/
def depDataChecksum (content : List Nat) : HexDigest :=
  ⟨"md5".data, streamChunks 128 content []⟩

/-
Embedding of publish.py (pulp_puppet/plugins/distributors/publish.py):
the dependency-index build and the MODULES stage.
-/

/-- A module as seen by the publish run: its unit key, its declared
dependencies (kept abstract as strings), the basename of its storage path,
and the byte content of its stored file. -/
structure PubModule where
  key : UnitKey
  dependencies : List PyStr
  storageBasename : PyStr
  content : List Nat
  deriving DecidableEq, Repr

/-- Modelled from the spec: constants.HOSTED_MODULE_FILE_RELATIVE_PATH is
not under src/; the spec gives the served layout
author-first-letter/author/module-filename, so _build_relative_path
(publish.py lines 233-244) joins that prefix with the storage basename. -/
def buildRelativePath (m : PubModule) : PyStr :=
  pyJoin (m.key.author.take 1 ++ "/".data ++ m.key.author) m.storageBasename

/-- One record of the dependency index (publish.py lines 312-313). -/
structure DepRecord where
  file : PyStr
  version : PyStr
  dependencies : List PyStr
  file_md5 : HexDigest
  deriving DecidableEq, Repr

/-- The gdbm key of lines 315-317: author/name. -/
def depKey (m : PubModule) : PyStr :=
  m.key.author ++ "/".data ++ m.key.name

/-- The record appended for one module at lines 299-313. -/
def depRecord (repoPath : PyStr) (m : PubModule) : DepRecord :=
  ⟨pyJoin repoPath (buildRelativePath m), m.key.version, m.dependencies,
    depDataChecksum m.content⟩

/-- Lines 283-327: _generate_dependency_data.  The gdbm store opened fresh
is modelled as the function from keys to the decoded JSON list held under
the key, an absent key holding the empty list; each module appends its
record to the list under its author/name key. -/
def generateDependencyData (repoPath : PyStr) (modules : List PubModule) :
    PyStr → List DepRecord :=
  modules.foldl
    (fun db m => fun k =>
      if k = depKey m then db k ++ [depRecord repoPath m] else db k)
    (fun _ => [])

/-- Stage states from pulp_puppet.common.constants (spec section 4.5). -/
inductive StageState
  | running
  | success
  | failed
  | skipped
  deriving DecidableEq, Repr

/-- The modules-stage slice of the progress report: lines 213-215 preset
the counts, add_failed_module collects the failed modules (modelled from
the spec, PublishProgressReport not being under src/). -/
structure ModulesProgress where
  totalCount : Nat
  finishedCount : Nat
  failedModules : List PubModule
  deriving DecidableEq, Repr

/-- Lines 200-231: _symlink_modules.  Each module is linked individually;
a raising makedirs or symlink is caught for that module alone and recorded
via add_failed_module, and the loop continues with the remaining
modules. -/
def symlinkModules (linkFails : PubModule → Bool) (modules : List PubModule) :
    ModulesProgress :=
  modules.foldl
    (fun p m =>
      if linkFails m then { p with failedModules := p.failedModules ++ [m] }
      else { p with finishedCount := p.finishedCount + 1 })
    ⟨modules.length, 0, []⟩

/-- Result of the MODULES stage: its final state and progress. -/
structure ModulesStepResult where
  state : StageState
  progress : ModulesProgress
  returnedModules : Option (List PubModule)
  deriving DecidableEq, Repr

/-- Lines 77-121: _modules_step.  Any exception raised by _init_build_dir,
_retrieve_repo_modules or _symlink_modules turns the stage FAILED and
returns None; otherwise the stage ends SUCCESS and returns the modules.
_symlink_modules never raises (its per-module failures are caught), so a
raising body is modelled by initFails covering lines 94-95. -/
def modulesStep (initFails : Bool) (linkFails : PubModule → Bool)
    (modules : List PubModule) : ModulesStepResult :=
  if initFails then ⟨StageState.failed, ⟨0, 0, []⟩, none⟩
  else
    let p := symlinkModules linkFails modules
    ⟨StageState.success, p, some modules⟩

/-
Basic lemmas about the path primitives.
-/

lemma pyEndsWith_append_slash (d : PyStr) :
    pyEndsWith (d ++ ['/']) ['/'] = true := by
  rw [pyEndsWith, List.isSuffixOf_iff_suffix]
  exact List.suffix_append _ _

lemma withSlash_endsWith (d : PyStr) :
    pyEndsWith (withSlash d) ['/'] = true := by
  unfold withSlash
  by_cases h : pyEndsWith d "/".data
  · simp [h]
  · simp [h, pyEndsWith_append_slash]

lemma withSlash_idem (d : PyStr) : withSlash (withSlash d) = withSlash d := by
  conv_lhs => rw [withSlash]
  simp [withSlash_endsWith]

lemma withSlash_ne_nil (d : PyStr) : withSlash d ≠ [] := by
  unfold withSlash
  by_cases h : pyEndsWith d "/".data
  · simp only [h, if_true]
    rintro rfl
    rw [pyEndsWith, List.isSuffixOf_iff_suffix] at h
    simp at h
  · simp [h]

lemma pyJoin_withSlash (d n : PyStr) (hd : d ≠ []) :
    pyJoin (withSlash d) n = pyJoin d n := by
  unfold withSlash
  by_cases he : pyEndsWith d "/".data
  · simp [he]
  · simp only [he, Bool.false_eq_true, if_false]
    unfold pyJoin
    by_cases hb : pyStartsWith n "/".data
    · simp [hb]
    · simp [hb, pyEndsWith_append_slash, he, hd]

lemma safeEntry_withSlash (d n : PyStr) (hd : d ≠ []) :
    safeEntry (withSlash d) n = safeEntry d n := by
  unfold safeEntry
  rw [pyJoin_withSlash d n hd, withSlash_idem]

/-- The loop of _archive_paths_are_safe, with its in-loop mutation of the
destination variable, is equivalent to checking the per-entry predicate of
the spec on every entry, for any nonempty destination. -/
lemma archivePathsAreSafe_eq_all (d : PyStr) (names : List PyStr) (hd : d ≠ []) :
    archivePathsAreSafe d names = names.all (safeEntry d) := by
  induction names generalizing d with
  | nil => rfl
  | cons name rest ih =>
    rw [archivePathsAreSafe, List.all_cons]
    have hfun : safeEntry (withSlash d) = safeEntry d :=
      funext (fun n => safeEntry_withSlash d n hd)
    cases hc : pyStartsWith (pyNormpath (pyJoin d name)) (withSlash d) with
    | false =>
      have hs : safeEntry d name = false := hc
      simp [hc, hs]
    | true =>
      have hs : safeEntry d name = true := hc
      rw [if_pos rfl, ih (withSlash d) (withSlash_ne_nil d), hfun, hs,
        Bool.true_and]

/-
Structural lemmas about publishRepo.
-/

/-- The extraction loop only ever appends staging operations (extractions
into the temporary directory and renames inside it), never commit
operations. -/
lemma extractFold_commitOps (tempDest : PyStr) (units : List PuppetUnit)
    (st : ExtractState) :
    commitOps (units.foldl (extractUnitStep tempDest) st).trace =
      commitOps st.trace := by
  induction units generalizing st with
  | nil => rfl
  | cons u rest ih =>
    rw [List.foldl_cons, ih]
    unfold commitOps extractUnitStep
    cases u.archive with
    | none => rfl
    | some names =>
      by_cases hf : u.extractFails
      · simp [hf, isCommitOp]
      · cases hr : renameDirectory u.key.name tempDest names <;>
          simp [hf, hr, isCommitOp]

/-- The error collector of _check_for_unsafe_archive_paths distributes
over its accumulator. -/
lemma checkUnsafe_foldl_append (units : List PuppetUnit) (destination : PyStr)
    (errs : List (UnitKey × PyStr)) :
    (units.foldl
      (fun errs u =>
        match u.archive with
        | none => errs ++ [(u.key, openErrorMessage)]
        | some names =>
          if archivePathsAreSafe destination names then errs
          else errs ++ [(u.key, ERROR_MESSAGE_PATH)])
      errs) =
    errs ++ checkForUnsafeArchivePaths units destination := by
  induction units generalizing errs with
  | nil => simp [checkForUnsafeArchivePaths]
  | cons u rest ih =>
    rw [List.foldl_cons]
    unfold checkForUnsafeArchivePaths
    rw [List.foldl_cons, ih]
    cases u.archive with
    | none => rw [ih]; simp
    | some names =>
      by_cases hs : archivePathsAreSafe destination names
      · simp only [hs, if_true]
        rw [ih]
        simp
      · simp only [hs, Bool.false_eq_true, if_false]
        rw [ih]
        simp

/-- A unit whose tarball fails the path-safety check makes the validation
error list nonempty. -/
lemma checkUnsafe_ne_nil (units : List PuppetUnit) (destination : PyStr)
    (u : PuppetUnit) (names : List PyStr) (hu : u ∈ units)
    (ha : u.archive = some names)
    (hs : archivePathsAreSafe destination names = false) :
    checkForUnsafeArchivePaths units destination ≠ [] := by
  induction units with
  | nil => exact absurd hu (List.not_mem_nil _)
  | cons v rest ih =>
    unfold checkForUnsafeArchivePaths
    rw [List.foldl_cons, checkUnsafe_foldl_append]
    rcases List.mem_cons.1 hu with rfl | hu
    · rw [ha]
      simp [hs]
    · cases hv : v.archive with
      | none =>
        simp
      | some vnames =>
        by_cases hvs : archivePathsAreSafe destination vnames
        · simp only [hvs, if_true, List.nil_append]
          exact ih hu
        · simp [hvs]

/-
Lemmas about the dependency-index build, the modules stage and the
chunked checksum loop.
-/

/-- Unrolling the dependency-data fold: the store reached from any
intermediate store holds, at each key, the old value followed by the
records of the remaining modules with that key, in presentation order. -/
lemma generateDependencyData_go (repoPath : PyStr) (modules : List PubModule)
    (db : PyStr → List DepRecord) (k : PyStr) :
    (modules.foldl
      (fun db m => fun k =>
        if k = depKey m then db k ++ [depRecord repoPath m] else db k)
      db) k =
    db k ++ (modules.filter (fun m => depKey m = k)).map (depRecord repoPath) := by
  induction modules generalizing db with
  | nil => simp
  | cons m rest ih =>
    rw [List.foldl_cons, ih]
    by_cases hk : depKey m = k
    · subst hk
      simp
    · have hk2 : ¬ (k = depKey m) := fun h => hk h.symm
      simp [hk, hk2]

/-- Unrolling the symlink loop: starting from any progress value, the
loop adds every failing module to the failure list in order and counts
every non-failing module as finished. -/
lemma symlinkModules_go (linkFails : PubModule → Bool)
    (modules : List PubModule) (p : ModulesProgress) :
    modules.foldl
      (fun p m =>
        if linkFails m then { p with failedModules := p.failedModules ++ [m] }
        else { p with finishedCount := p.finishedCount + 1 })
      p =
    ⟨p.totalCount,
     p.finishedCount + (modules.filter (fun m => ¬ linkFails m)).length,
     p.failedModules ++ modules.filter (fun m => linkFails m)⟩ := by
  induction modules generalizing p with
  | nil => simp
  | cons m rest ih =>
    rw [List.foldl_cons, ih]
    by_cases hf : linkFails m
    · simp [hf]
    · simp [hf, Nat.add_assoc, Nat.add_comm 1]

/-- Reading a list in chunks of any positive size accumulates exactly the
whole list: the digest of the streamed file is the digest of its full
content, independent of the chunk size. -/
lemma streamChunks_pos (c : Nat) (hc : 0 < c) :
    ∀ (n : Nat) (data : List Nat), data.length ≤ n →
      ∀ acc, streamChunks c data acc = acc ++ data := by
  intro n
  induction n with
  | zero =>
    intro data hlen acc
    have hdata : data = [] := List.length_eq_zero.1 (Nat.le_zero.1 hlen)
    subst hdata
    rw [streamChunks]
    simp
  | succ n ih =>
    intro data hlen acc
    rw [streamChunks]
    by_cases h : data.take c = []
    · rw [dif_pos h]
      have hdata : data = [] := by
        cases data with
        | nil => rfl
        | cons d rest =>
          rcases Nat.exists_eq_succ_of_ne_zero (Nat.pos_iff_ne_zero.1 hc) with ⟨c2, rfl⟩
          simp at h
      simp [hdata]
    · rw [dif_neg h]
      have hd : data ≠ [] := by
        intro h0
        subst h0
        simp at h
      have hlen2 : (data.drop c).length ≤ n := by
        rw [List.length_drop]
        have : 1 ≤ data.length := by
          cases data with
          | nil => exact absurd rfl hd
          | cons d rest => simp
        omega
      rw [ih (data.drop c) hlen2, List.append_assoc, List.take_append_drop]

/-- Evaluation of calculate_checksum in the digest model. -/
lemma calculate_checksum_eq (content : List Nat) :
    calculate_checksum content = ⟨"sha256".data, content⟩ := by
  unfold calculate_checksum DEFAULT_HASHLIB
  rw [streamChunks_pos CHECKSUM_READ_BUFFER_SIZE (by norm_num [CHECKSUM_READ_BUFFER_SIZE])
    content.length content (le_refl _) []]
  rfl

/-- Evaluation of the inline dependency-data checksum in the digest
model. -/
lemma depDataChecksum_eq (content : List Nat) :
    depDataChecksum content = ⟨"md5".data, content⟩ := by
  unfold depDataChecksum
  rw [streamChunks_pos 128 (by norm_num) content.length content (le_refl _) []]
  rfl

/-
Structure of pySplit, slashJoin and pyNormpath, used for the rename
basename property and for the behaviour of entries that normalize to the
destination itself.
-/

lemma pySplit_ne_nil (s : PyStr) : pySplit s ≠ [] := by
  cases s with
  | nil => simp [pySplit]
  | cons c rest =>
    rw [pySplit]
    by_cases h : c = '/'
    · simp [h]
    · simp only [h, if_false]
      cases pySplit rest <;> simp

lemma slashJoin_single (c : PyStr) : slashJoin [c] = c := rfl

lemma slashJoin_cons (c : PyStr) (cs : List PyStr) (h : cs ≠ []) :
    slashJoin (c :: cs) = c ++ "/".data ++ slashJoin cs := by
  cases cs with
  | nil => exact absurd rfl h
  | cons c2 t => rfl

lemma slashJoin_pySplit (s : PyStr) : slashJoin (pySplit s) = s := by
  induction s with
  | nil => rfl
  | cons c rest ih =>
    rw [pySplit]
    by_cases h : c = '/'
    · subst h
      rw [if_pos rfl, slashJoin_cons [] (pySplit rest) (pySplit_ne_nil rest), ih]
      rfl
    · rw [if_neg h]
      cases hr : pySplit rest with
      | nil => exact absurd hr (pySplit_ne_nil rest)
      | cons h2 t2 =>
        cases t2 with
        | nil =>
          have hh : h2 = rest := by
            rw [hr, slashJoin_single] at ih
            exact ih
          rw [slashJoin_single, hh]
        | cons h3 t3 =>
          have hjoin := slashJoin_cons h2 (h3 :: t3) (by simp)
          rw [hr, hjoin] at ih
          rw [slashJoin_cons (c :: h2) (h3 :: t3) (by simp)]
          simp only [List.cons_append]
          rw [ih]

lemma msum_nil : msum [] = 0 := rfl

lemma msum_cons (c : PyStr) (cs : List PyStr) :
    msum (c :: cs) = c.length + 1 + msum cs := by
  unfold msum
  simp [Nat.add_comm]

lemma msum_append (a b : List PyStr) : msum (a ++ b) = msum a + msum b := by
  unfold msum
  simp

lemma length_slashJoin (cs : List PyStr) (h : cs ≠ []) :
    (slashJoin cs).length + 1 = msum cs := by
  induction cs with
  | nil => exact absurd rfl h
  | cons c rest ih =>
    cases rest with
    | nil => simp [slashJoin_single, msum_cons, msum_nil]
    | cons c2 t2 =>
      rw [slashJoin_cons c (c2 :: t2) (by simp), msum_cons, ← ih (by simp)]
      simp only [List.length_append, show ("/".data).length = 1 from rfl]
      omega

lemma normpathFold_msum (is : Nat) (acc : List PyStr) (c : PyStr) :
    msum (normpathFold is acc c) + (if c = [] then 1 else 0) ≤
      msum acc + (c.length + 1) := by
  by_cases hc : c = []
  · subst hc
    rw [normpathFold, if_pos (Or.inl rfl), if_pos rfl]
    simp
  · rw [if_neg hc, normpathFold]
    by_cases h1 : c = [] ∨ c = ".".data
    · rw [if_pos h1]
      omega
    · rw [if_neg h1]
      by_cases h2 : c ≠ "..".data ∨ (is = 0 ∧ acc = []) ∨
          (acc ≠ [] ∧ acc.getLast? = some "..".data)
      · rw [if_pos h2, msum_append, msum_cons, msum_nil]
        omega
      · rw [if_neg h2]
        by_cases h3 : acc ≠ []
        · rw [if_pos h3]
          have hd : msum acc.dropLast ≤ msum acc := by
            conv_rhs => rw [← List.dropLast_concat_getLast h3]
            rw [msum_append]
            omega
          omega
        · rw [if_neg h3]
          omega

lemma foldl_normpathFold_msum (is : Nat) (cs : List PyStr) (acc : List PyStr) :
    msum (cs.foldl (normpathFold is) acc) +
        cs.countP (fun c => decide (c = [])) ≤
      msum acc + msum cs := by
  induction cs generalizing acc with
  | nil => simp [msum_nil]
  | cons c rest ih =>
    rw [List.foldl_cons, msum_cons, List.countP_cons]
    have step := normpathFold_msum is acc c
    have tail := ih (normpathFold is acc c)
    by_cases hc : c = []
    · subst hc
      simp at step
      simp
      omega
    · rw [if_neg hc] at step
      simp only [decide_eq_true_eq, if_neg hc]
      omega

lemma pySplit_cons_slash (rest : PyStr) :
    pySplit ('/' :: rest) = [] :: pySplit rest := by
  rw [pySplit]
  simp

lemma startsWith_slash_exists (path : PyStr)
    (h : pyStartsWith path "/".data = true) : ∃ rest, path = '/' :: rest := by
  rw [pyStartsWith, List.isPrefixOf_iff_prefix] at h
  rcases h with ⟨t, ht⟩
  exact ⟨t, by rw [← ht]; rfl⟩

lemma startsWith_2slash_exists (path : PyStr)
    (h : pyStartsWith path "//".data = true) :
    ∃ rest, path = '/' :: '/' :: rest := by
  rw [pyStartsWith, List.isPrefixOf_iff_prefix] at h
  rcases h with ⟨t, ht⟩
  exact ⟨t, by rw [← ht]; rfl⟩

lemma initialSlashes_cases (path : PyStr) :
    initialSlashes path = 0 ∨ initialSlashes path = 1 ∨
      initialSlashes path = 2 := by
  unfold initialSlashes
  split_ifs <;> simp

lemma initialSlashes_le_countP (path : PyStr) :
    initialSlashes path ≤
      (pySplit path).countP (fun c => decide (c = [])) := by
  unfold initialSlashes
  split_ifs with h1 h2
  · rcases startsWith_2slash_exists path h2.1 with ⟨rest, rfl⟩
    rw [pySplit_cons_slash, pySplit_cons_slash, List.countP_cons,
      List.countP_cons]
    simp
  · rcases startsWith_slash_exists path h1 with ⟨rest, rfl⟩
    rw [pySplit_cons_slash, List.countP_cons]
    simp
  · exact Nat.zero_le _

lemma initialSlashes_le_length (path : PyStr) :
    initialSlashes path ≤ path.length := by
  unfold initialSlashes
  split_ifs with h1 h2
  · rcases startsWith_2slash_exists path h2.1 with ⟨rest, rfl⟩
    simp
  · rcases startsWith_slash_exists path h1 with ⟨rest, rfl⟩
    simp
  · exact Nat.zero_le _

/-- Normalisation never lengthens a nonempty path. -/
lemma pyNormpath_length_le (path : PyStr) (h : path ≠ []) :
    (pyNormpath path).length ≤ path.length := by
  rw [pyNormpath, if_neg h]
  have hcomps : msum (pySplit path) = path.length + 1 := by
    rw [← length_slashJoin _ (pySplit_ne_nil path), slashJoin_pySplit]
  have hb := foldl_normpathFold_msum (initialSlashes path) (pySplit path) []
  rw [msum_nil, Nat.zero_add, hcomps] at hb
  have his := initialSlashes_le_countP path
  have hlen1 : 1 ≤ path.length := List.length_pos.2 h
  by_cases hr :
      List.replicate (initialSlashes path) '/' ++
        slashJoin ((pySplit path).foldl (normpathFold (initialSlashes path)) []) = []
  · rw [if_pos hr]
    simpa using hlen1
  · rw [if_neg hr]
    by_cases hn : (pySplit path).foldl (normpathFold (initialSlashes path)) [] = []
    · rw [hn]
      have hj : slashJoin ([] : List PyStr) = [] := rfl
      rw [hj]
      simp only [List.append_nil, List.length_replicate]
      exact initialSlashes_le_length path
    · have hmj := length_slashJoin _ hn
      simp only [List.length_append, List.length_replicate]
      omega

lemma mem_of_getLast?_eq (l : PyStr) (a : Char) (h : l.getLast? = some a) :
    a ∈ l := by
  rcases List.mem_getLast?_eq_getLast (l := l) (x := a) (by rw [h]; rfl) with
    ⟨hne, rfl⟩
  exact List.getLast_mem hne

lemma pySplit_no_slash (s : PyStr) : ∀ c ∈ pySplit s, '/' ∉ c := by
  induction s with
  | nil =>
    intro c hc
    rw [show pySplit [] = [[]] from rfl] at hc
    rcases List.mem_singleton.1 hc with rfl
    simp
  | cons a rest ih =>
    rw [pySplit]
    by_cases h : a = '/'
    · rw [if_pos h]
      intro c hc
      rcases List.mem_cons.1 hc with rfl | hc
      · simp
      · exact ih c hc
    · rw [if_neg h]
      cases hr : pySplit rest with
      | nil => exact absurd hr (pySplit_ne_nil rest)
      | cons h2 t2 =>
        intro c hc
        rcases List.mem_cons.1 hc with rfl | hc
        · intro hmem
          rcases List.mem_cons.1 hmem with hs | hs
          · exact h hs.symm
          · exact ih h2 (by rw [hr]; exact List.mem_cons_self _ _) hs
        · exact ih c (by rw [hr]; exact List.mem_cons_of_mem _ hc)

lemma normpathFold_elem (is : Nat) (acc : List PyStr) (c : PyStr)
    (hacc : ∀ x ∈ acc, x ≠ [] ∧ '/' ∉ x) (hc : '/' ∉ c) :
    ∀ x ∈ normpathFold is acc c, x ≠ [] ∧ '/' ∉ x := by
  rw [normpathFold]
  by_cases h1 : c = [] ∨ c = ".".data
  · rw [if_pos h1]
    exact hacc
  · rw [if_neg h1]
    by_cases h2 : c ≠ "..".data ∨ (is = 0 ∧ acc = []) ∨
        (acc ≠ [] ∧ acc.getLast? = some "..".data)
    · rw [if_pos h2]
      intro x hx
      rcases List.mem_append.1 hx with hx | hx
      · exact hacc x hx
      · rcases List.mem_singleton.1 hx with rfl
        exact ⟨fun h0 => h1 (Or.inl h0), hc⟩
    · rw [if_neg h2]
      by_cases h3 : acc ≠ []
      · rw [if_pos h3]
        intro x hx
        exact hacc x (List.dropLast_sublist acc |>.subset hx)
      · rw [if_neg h3]
        exact hacc

lemma foldl_normpathFold_elem (is : Nat) (cs : List PyStr) (acc : List PyStr)
    (hacc : ∀ x ∈ acc, x ≠ [] ∧ '/' ∉ x) (hcs : ∀ c ∈ cs, '/' ∉ c) :
    ∀ x ∈ cs.foldl (normpathFold is) acc, x ≠ [] ∧ '/' ∉ x := by
  induction cs generalizing acc with
  | nil => exact hacc
  | cons c rest ih =>
    rw [List.foldl_cons]
    exact ih (normpathFold is acc c)
      (normpathFold_elem is acc c hacc (hcs c (List.mem_cons_self _ _)))
      (fun c2 hc2 => hcs c2 (List.mem_cons_of_mem _ hc2))

lemma slashJoin_ne_nil (cs : List PyStr) (hne : cs ≠ [])
    (h : ∀ x ∈ cs, x ≠ []) : slashJoin cs ≠ [] := by
  cases cs with
  | nil => exact absurd rfl hne
  | cons c rest =>
    cases rest with
    | nil =>
      rw [slashJoin_single]
      exact h c (List.mem_singleton_self c)
    | cons c2 t =>
      rw [slashJoin_cons c (c2 :: t) (by simp)]
      simp

lemma slashJoin_getLast? (cs : List PyStr) (hne : cs ≠ [])
    (h : ∀ x ∈ cs, x ≠ []) :
    (slashJoin cs).getLast? = (cs.getLastD []).getLast? := by
  induction cs with
  | nil => exact absurd rfl hne
  | cons c rest ih =>
    cases rest with
    | nil =>
      rw [slashJoin_single]
      rfl
    | cons c2 t =>
      rw [slashJoin_cons c (c2 :: t) (by simp), List.append_assoc,
        List.getLast?_append_of_ne_nil]
      · rw [List.getLast?_append_of_ne_nil]
        · rw [ih (by simp) (fun x hx => h x (List.mem_cons_of_mem _ hx))]
          rfl
        · exact slashJoin_ne_nil (c2 :: t) (by simp)
            (fun x hx => h x (List.mem_cons_of_mem _ hx))
      · have := slashJoin_ne_nil (c2 :: t) (by simp)
          (fun x hx => h x (List.mem_cons_of_mem _ hx))
        simp [this]

/-- A normalized path ends with the separator only when it is the POSIX
root, single or double slash. -/
lemma pyNormpath_getLast_slash (path : PyStr)
    (h : (pyNormpath path).getLast? = some '/') :
    pyNormpath path = "/".data ∨ pyNormpath path = "//".data := by
  by_cases hp : path = []
  · subst hp
    rw [show pyNormpath [] = ".".data from rfl] at h
    exact absurd h (by decide)
  · rw [pyNormpath, if_neg hp] at h ⊢
    by_cases hr :
        List.replicate (initialSlashes path) '/' ++
          slashJoin ((pySplit path).foldl (normpathFold (initialSlashes path)) []) = []
    · rw [if_pos hr] at h
      exact absurd h (by decide)
    · rw [if_neg hr] at h ⊢
      by_cases hn :
          (pySplit path).foldl (normpathFold (initialSlashes path)) [] = []
      · rw [hn] at h hr ⊢
        rcases initialSlashes_cases path with h0 | h0 | h0 <;>
          rw [h0] at h hr ⊢
        · exact absurd rfl hr
        · left
          rfl
        · right
          rfl
      · exfalso
        have helem :
            ∀ x ∈ (pySplit path).foldl (normpathFold (initialSlashes path)) [],
              x ≠ [] ∧ '/' ∉ x :=
          foldl_normpathFold_elem _ _ _ (by simp) (pySplit_no_slash path)
        have hjne :
            slashJoin ((pySplit path).foldl (normpathFold (initialSlashes path)) []) ≠ [] :=
          slashJoin_ne_nil _ hn (fun x hx => (helem x hx).1)
        rw [List.getLast?_append_of_ne_nil _ hjne,
          slashJoin_getLast? _ hn (fun x hx => (helem x hx).1)] at h
        have hmem :
            ((pySplit path).foldl (normpathFold (initialSlashes path)) []).getLastD [] ∈
              (pySplit path).foldl (normpathFold (initialSlashes path)) [] := by
          rw [List.getLastD_eq_getLast? _ _, List.getLast?_eq_getLast_of_ne_nil hn]
          exact List.getLast_mem hn
        have hlast := helem _ hmem
        exact hlast.2 (mem_of_getLast?_eq _ _ h)

/-- An entry whose normalized join equals the normalized destination
fails the per-entry prefix check, unless the destination consists
entirely of separators (the POSIX roots "/" and "//"). -/
lemma safeEntry_self_false (dest e : PyStr) (h1 : dest ≠ "/".data)
    (h2 : dest ≠ "//".data)
    (hnorm : pyNormpath (pyJoin dest e) = pyNormpath dest) :
    safeEntry dest e = false := by
  unfold safeEntry pyStartsWith
  rw [hnorm]
  by_cases hd : dest = []
  · subst hd
    decide
  · have hle := pyNormpath_length_le dest hd
    rw [Bool.eq_false_iff]
    intro hpre
    rw [List.isPrefixOf_iff_prefix] at hpre
    unfold withSlash at hpre
    by_cases he : pyEndsWith dest "/".data
    · rw [if_pos he] at hpre
      have hlen := hpre.length_le
      have heq : dest = pyNormpath dest :=
        hpre.eq_of_length (Nat.le_antisymm hlen hle)
      rw [pyEndsWith, List.isSuffixOf_iff_suffix] at he
      rcases he with ⟨t, ht⟩
      have hgl : dest.getLast? = some '/' := by
        rw [← ht, List.getLast?_append_of_ne_nil t (by decide)]
        rfl
      rw [heq] at hgl
      rcases pyNormpath_getLast_slash dest hgl with hcase | hcase
      · exact h1 (heq.trans hcase)
      · exact h2 (heq.trans hcase)
    · rw [if_neg he] at hpre
      have hlen := hpre.length_le
      rw [List.length_append] at hlen
      have hone : ("/".data : PyStr).length = 1 := rfl
      omega

lemma pySplit_noSlash (x : PyStr) (h : '/' ∉ x) : pySplit x = [x] := by
  induction x with
  | nil => rfl
  | cons c rest ih =>
    have hc : ¬ c = '/' := fun h0 => h (h0 ▸ List.mem_cons_self _ _)
    rw [pySplit, if_neg hc, ih (fun h0 => h (List.mem_cons_of_mem _ h0))]

lemma pySplit_len_two (r : PyStr) (h : '/' ∈ r) : 2 ≤ (pySplit r).length := by
  induction r with
  | nil => simp at h
  | cons c rest ih =>
    rw [pySplit]
    by_cases hc : c = '/'
    · rw [if_pos hc]
      have := pySplit_ne_nil rest
      have hpos : 1 ≤ (pySplit rest).length := List.length_pos.2 this
      simp
      omega
    · rw [if_neg hc]
      have hmem : '/' ∈ rest := by
        rcases List.mem_cons.1 h with h0 | h0
        · exact absurd h0.symm hc
        · exact h0
      cases hr : pySplit rest with
      | nil => exact absurd hr (pySplit_ne_nil rest)
      | cons h2 t2 =>
        have hlen := ih hmem
        rw [hr] at hlen
        simpa using hlen

lemma pySplit_getLast_append (x n : PyStr) (hn : '/' ∉ n) :
    (pySplit (x ++ '/' :: n)).getLast? = some n := by
  induction x with
  | nil =>
    rw [List.nil_append, pySplit_cons_slash, pySplit_noSlash n hn]
    rfl
  | cons c rest ih =>
    rw [List.cons_append]
    by_cases hc : c = '/'
    · subst hc
      rw [pySplit_cons_slash]
      cases hr : pySplit (rest ++ '/' :: n) with
      | nil => exact absurd hr (pySplit_ne_nil _)
      | cons h2 t2 =>
        rw [List.getLast?_cons_cons, ← hr]
        exact ih
    · rw [pySplit, if_neg hc]
      cases hr : pySplit (rest ++ '/' :: n) with
      | nil => exact absurd hr (pySplit_ne_nil _)
      | cons h2 t2 =>
        cases t2 with
        | nil =>
          exfalso
          have hlen := pySplit_len_two (rest ++ '/' :: n) (by simp)
          rw [hr] at hlen
          simp at hlen
        | cons h3 t3 =>
          rw [List.getLast?_cons_cons]
          have hih := ih
          rw [hr, List.getLast?_cons_cons] at hih
          exact hih

lemma slashJoin_append_single (cs : List PyStr) (n : PyStr) (h : cs ≠ []) :
    slashJoin (cs ++ [n]) = slashJoin cs ++ '/' :: n := by
  induction cs with
  | nil => exact absurd rfl h
  | cons c rest ih =>
    cases rest with
    | nil =>
      rw [show ([c] ++ [n] : List PyStr) = [c, n] from rfl,
        slashJoin_cons c [n] (by simp), slashJoin_single, slashJoin_single,
        List.append_assoc]
      rfl
    | cons c2 t =>
      rw [List.cons_append, slashJoin_cons c ((c2 :: t) ++ [n]) (by simp),
        slashJoin_cons c (c2 :: t) (by simp), ih (by simp)]
      simp

lemma getLastD_of_getLast? (l : List PyStr) (a : PyStr)
    (h : l.getLast? = some a) : l.getLastD [] = a := by
  rw [List.getLastD_eq_getLast? _ _, h]
  rfl

lemma noSlash_not_absolute (n : PyStr) (h1 : n ≠ []) (h2 : '/' ∉ n) :
    pyStartsWith n "/".data = false := by
  cases n with
  | nil => exact absurd rfl h1
  | cons c rest =>
    have hc : ¬ ('/' = c) := fun h0 => h2 (h0 ▸ List.mem_cons_self _ _)
    rw [pyStartsWith]
    show List.isPrefixOf ['/'] (c :: rest) = false
    rw [List.isPrefixOf]
    simp [hc]

lemma normpathFold_wf_append (is : Nat) (acc : List PyStr) (n : PyStr)
    (h1 : n ≠ []) (h3 : n ≠ ".".data) (h4 : n ≠ "..".data) :
    normpathFold is acc n = acc ++ [n] := by
  rw [normpathFold, if_neg (by rintro (h | h); exacts [h1 h, h3 h]),
    if_pos (Or.inl h4)]

/-- The last path component of the directory rename target: the
normalized join of the unit name against the slash-terminated staging
destination ends in the unit name itself, for any well-formed name
(nonempty, no separator, not "." or ".."). -/
lemma lastComponent_normpath_join (d n : PyStr) (h1 : n ≠ [])
    (h2 : '/' ∉ n) (h3 : n ≠ ".".data) (h4 : n ≠ "..".data) :
    (pySplit (pyNormpath (pyJoin (withSlash d) n))).getLastD [] = n := by
  have hjoin : pyJoin (withSlash d) n = withSlash d ++ n := by
    rw [pyJoin]
    rw [if_neg (by rw [noSlash_not_absolute n h1 h2]; simp),
      if_pos (Or.inr (by rw [show ("/".data : PyStr) = ['/'] from rfl, withSlash_endsWith]))]
  have hJne : withSlash d ++ n ≠ [] := by
    intro h0
    exact withSlash_ne_nil d (List.append_eq_nil.1 h0).1
  have hgl : (withSlash d).getLast? = some '/' := by
    have he := withSlash_endsWith d
    rw [pyEndsWith, List.isSuffixOf_iff_suffix] at he
    rcases he with ⟨t, ht⟩
    rw [← ht, List.getLast?_append_of_ne_nil t (by decide)]
    rfl
  have hds : withSlash d = (withSlash d).dropLast ++ ['/'] := by
    conv_lhs => rw [← List.dropLast_concat_getLast (withSlash_ne_nil d)]
    have := List.getLast?_eq_getLast_of_ne_nil (withSlash_ne_nil d)
    rw [this] at hgl
    rw [Option.some.injEq] at hgl
    rw [hgl]
  have hJ : withSlash d ++ n = (withSlash d).dropLast ++ '/' :: n := by
    conv_lhs => rw [hds]
    rw [List.append_assoc]
    rfl
  rw [hjoin, pyNormpath, if_neg hJne]
  have hcomps_last : (pySplit (withSlash d ++ n)).getLast? = some n := by
    rw [hJ]
    exact pySplit_getLast_append _ n h2
  have hcomps : pySplit (withSlash d ++ n) =
      (pySplit (withSlash d ++ n)).dropLast ++ [n] := by
    conv_lhs => rw [← List.dropLast_concat_getLast (pySplit_ne_nil _)]
    have := List.getLast?_eq_getLast_of_ne_nil (pySplit_ne_nil (withSlash d ++ n))
    rw [this] at hcomps_last
    rw [Option.some.injEq] at hcomps_last
    rw [hcomps_last]
  rw [hcomps, List.foldl_append, List.foldl_cons, List.foldl_nil,
    normpathFold_wf_append _ _ n h1 h3 h4]
  have hprev : ∀ x ∈ ((pySplit (withSlash d ++ n)).dropLast).foldl
      (normpathFold (initialSlashes (withSlash d ++ n))) [],
      x ≠ [] ∧ '/' ∉ x := by
    refine foldl_normpathFold_elem _ _ _ (by simp) ?_
    intro c hc
    exact pySplit_no_slash _ c ((List.dropLast_sublist _).subset hc)
  cases hp : ((pySplit (withSlash d ++ n)).dropLast).foldl
      (normpathFold (initialSlashes (withSlash d ++ n))) [] with
  | nil =>
    simp only [List.nil_append, slashJoin_single]
    cases his : initialSlashes (withSlash d ++ n) with
    | zero =>
      rw [List.replicate_zero, List.nil_append, if_neg h1,
        pySplit_noSlash n h2]
      rfl
    | succ k =>
      rw [List.replicate_succ']
      have hform : (List.replicate k '/' ++ ['/']) ++ n =
          List.replicate k '/' ++ '/' :: n := by
        rw [List.append_assoc]
        rfl
      rw [hform, if_neg (by simp)]
      exact getLastD_of_getLast? _ n (pySplit_getLast_append _ n h2)
  | cons p1 pt =>
    simp only [slashJoin_append_single (p1 :: pt) n (by simp)]
    have hform : List.replicate (initialSlashes (withSlash d ++ n)) '/' ++
        (slashJoin (p1 :: pt) ++ '/' :: n) =
        (List.replicate (initialSlashes (withSlash d ++ n)) '/' ++
          slashJoin (p1 :: pt)) ++ '/' :: n := by
      rw [List.append_assoc]
    rw [hform, if_neg (by simp)]
    exact getLastD_of_getLast? _ n (pySplit_getLast_append _ n h2)

lemma extractFold_errors_extend (tempDest : PyStr) (units : List PuppetUnit)
    (st : ExtractState) :
    ∃ rest, (units.foldl (extractUnitStep tempDest) st).errors =
      st.errors ++ rest := by
  induction units generalizing st with
  | nil => exact ⟨[], by simp⟩
  | cons u us ih =>
    rw [List.foldl_cons]
    rcases ih (extractUnitStep tempDest st u) with ⟨rest, hrest⟩
    rw [hrest]
    unfold extractUnitStep
    cases u.archive with
    | none => exact ⟨[(u.key, openErrorMessage)] ++ rest, by simp⟩
    | some names =>
      by_cases hf : u.extractFails
      · simp only [hf, if_true]
        exact ⟨[(u.key, extractErrorMessage)] ++ rest, by simp⟩
      · simp only [hf, Bool.false_eq_true, if_false]
        cases renameDirectory u.key.name tempDest names with
        | tooMany => exact ⟨[(u.key, tooManyMessage)] ++ rest, by simp⟩
        | inPlace => exact ⟨rest, by simp⟩
        | moved b a => exact ⟨rest, by simp⟩

lemma extractFold_tooMany_mem (tempDest : PyStr) (units : List PuppetUnit)
    (st : ExtractState) (u : PuppetUnit) (names : List PyStr)
    (hu : u ∈ units) (ha : u.archive = some names)
    (hf : u.extractFails = false)
    (hr : renameDirectory u.key.name tempDest names = RenameResult.tooMany) :
    (u.key, tooManyMessage) ∈
      (units.foldl (extractUnitStep tempDest) st).errors := by
  rcases List.append_of_mem hu with ⟨s, t, rfl⟩
  rw [List.foldl_append, List.foldl_cons]
  rcases extractFold_errors_extend tempDest t
      (extractUnitStep tempDest (s.foldl (extractUnitStep tempDest) st) u) with ⟨rest, hrest⟩
  rw [hrest]
  have hstep : (extractUnitStep tempDest (s.foldl (extractUnitStep tempDest) st) u).errors =
      (s.foldl (extractUnitStep tempDest) st).errors ++ [(u.key, tooManyMessage)] := by
    unfold extractUnitStep
    rw [ha]
    simp only [hf, Bool.false_eq_true, if_false, hr]
  rw [hstep]
  simp

lemma publishRepo_extraction_errors (destination tempDest : PyStr)
    (units : List PuppetUnit) (hne : destination ≠ [])
    (hdup : findDuplicateNames units = [])
    (hsafe : checkForUnsafeArchivePaths units destination = []) :
    (publishRepo destination tempDest false units).1.errors =
      (units.foldl (extractUnitStep tempDest)
        ⟨[], [], [FsOp.ensureDir destination,
                  FsOp.makeTempDir tempDest]⟩).errors := by
  simp only [publishRepo]
  rw [if_neg hne, if_neg (by simp [hdup]), if_neg (by simp [hsafe])]
  simp only [Bool.false_eq_true, if_false]
  by_cases h5 : (units.foldl (extractUnitStep tempDest)
      ⟨[], [], [FsOp.ensureDir destination, FsOp.makeTempDir tempDest]⟩).errors ≠ []
  · rw [if_pos h5]
  · rw [if_neg h5]

/-- Claim C1: the install-time path-safety check returns true exactly when
every entry path, after a normalized absolute join against the
destination, still lies under the destination (the destination with a
trailing separator is a textual prefix of the normalized join), and
returns false as soon as any entry resolves outside; moreover a unit
judged unsafe is never extracted: a publish run containing such a unit
performs no filesystem operation at all. -/
theorem claim_C1 :
    (∀ destination names, destination ≠ [] →
      archivePathsAreSafe destination names =
        names.all (safeEntry destination)) ∧
    (∀ destination tempDest ensureFails units u names,
      u ∈ units → u.archive = some names →
      archivePathsAreSafe destination names = false →
      (publishRepo destination tempDest ensureFails units).2 = []) := by
  constructor
  · exact fun d ns hd => archivePathsAreSafe_eq_all d ns hd
  · intro destination tempDest ensureFails units u names hu ha hs
    simp only [publishRepo]
    by_cases h1 : destination = []
    · simp [h1]
    · rw [if_neg h1]
      by_cases h2 : findDuplicateNames units ≠ []
      · rw [if_pos h2]
      · rw [if_neg h2]
        have h3 : checkForUnsafeArchivePaths units destination ≠ [] :=
          checkUnsafe_ne_nil units destination u names hu ha hs
        rw [if_pos h3]

/-- Witness for C1: a traversal entry is judged unsafe against a real
destination, agreeing with the per-entry predicate, and a run holding the
offending unit touches the filesystem nowhere. -/
theorem claim_C1_witness :
    (archivePathsAreSafe "/etc/puppet/modules".data ["../../etc/passwd".data] =
      ["../../etc/passwd".data].all (safeEntry "/etc/puppet/modules".data)) ∧
    (publishRepo "/etc/puppet/modules".data "/tmp/pulpXY".data false
        [⟨⟨"jdob".data, "bad".data, "1.0.0".data⟩,
          some ["../../etc/passwd".data], false⟩]).2 = [] :=
  ⟨claim_C1.1 _ _ (by decide),
   claim_C1.2 "/etc/puppet/modules".data "/tmp/pulpXY".data false
     [⟨⟨"jdob".data, "bad".data, "1.0.0".data⟩,
        some ["../../etc/passwd".data], false⟩]
     ⟨⟨"jdob".data, "bad".data, "1.0.0".data⟩,
        some ["../../etc/passwd".data], false⟩
     ["../../etc/passwd".data] (List.mem_singleton.mpr rfl) rfl (by decide)⟩

/-- Claim C2: in every install run, either no per-unit error was recorded,
or the run performed no commit operation: the clear-destination and
move-from-staging steps run only when the run reached commit with zero
recorded errors, so a run with errors leaves the live destination
unmodified. -/
theorem claim_C2 (destination tempDest : PyStr) (ensureFails : Bool)
    (units : List PuppetUnit) :
    (publishRepo destination tempDest ensureFails units).1.errors = [] ∨
    commitOps (publishRepo destination tempDest ensureFails units).2 = [] := by
  simp only [publishRepo]
  by_cases h1 : destination = []
  · simp [h1, commitOps]
  · rw [if_neg h1]
    by_cases h2 : findDuplicateNames units ≠ []
    · rw [if_pos h2]
      right
      rfl
    · rw [if_neg h2]
      by_cases h3 : checkForUnsafeArchivePaths units destination ≠ []
      · rw [if_pos h3]
        right
        rfl
      · rw [if_neg h3]
        by_cases h4 : ensureFails = true
        · simp only [h4, if_true]
          right
          rfl
        · simp only [h4, Bool.false_eq_true, if_false]
          by_cases h5 :
            (units.foldl (extractUnitStep tempDest)
              ⟨[], [], [FsOp.ensureDir destination,
                        FsOp.makeTempDir tempDest]⟩).errors ≠ []
          · rw [if_pos h5]
            right
            rw [extractFold_commitOps]
            rfl
          · rw [if_neg h5]
            left
            simpa using h5

/-- Claim C6: a run whose unit set contains at least two units sharing a
name is rejected whole: the report fails with the duplicate-names summary,
no filesystem operation is performed, and the error list reports exactly
the units whose name occurs at least twice, each individually. -/
theorem claim_C6 (destination tempDest : PyStr) (ensureFails : Bool)
    (units : List PuppetUnit) (u0 : PuppetUnit)
    (hne : destination ≠ []) (h0 : u0 ∈ units)
    (hdup : 2 ≤ (units.filter (fun v => v.key.name = u0.key.name)).length) :
    (publishRepo destination tempDest ensureFails units).1.success = false ∧
    (publishRepo destination tempDest ensureFails units).1.summary =
      "duplicate unit names".data ∧
    (publishRepo destination tempDest ensureFails units).2 = [] ∧
    (publishRepo destination tempDest ensureFails units).1.errors =
      (units.filter (fun u =>
        2 ≤ (units.filter (fun v => v.key.name = u.key.name)).length)).map
        (fun u => (u.key, duplicateNameMessage)) := by
  have hmem : u0 ∈ findDuplicateNames units := by
    unfold findDuplicateNames
    rw [List.mem_filter]
    exact ⟨h0, by simpa using hdup⟩
  have hd : findDuplicateNames units ≠ [] := by
    intro hnil
    rw [hnil] at hmem
    exact absurd hmem (List.not_mem_nil _)
  simp only [publishRepo]
  rw [if_neg hne, if_pos hd]
  exact ⟨rfl, rfl, rfl, rfl⟩

/-- Witness for C6: two units named valid by different authors (the spec
example) are both reported and nothing is extracted. -/
theorem claim_C6_witness :
    (publishRepo "/etc/puppet/modules".data "/tmp/pulpXY".data false
        [⟨⟨"jdob".data, "valid".data, "1.0.0".data⟩, some [], false⟩,
         ⟨⟨"mmcfarland".data, "valid".data, "2.0.0".data⟩, some [], false⟩]).1.success
        = false ∧
    (publishRepo "/etc/puppet/modules".data "/tmp/pulpXY".data false
        [⟨⟨"jdob".data, "valid".data, "1.0.0".data⟩, some [], false⟩,
         ⟨⟨"mmcfarland".data, "valid".data, "2.0.0".data⟩, some [], false⟩]).1.summary
        = "duplicate unit names".data ∧
    (publishRepo "/etc/puppet/modules".data "/tmp/pulpXY".data false
        [⟨⟨"jdob".data, "valid".data, "1.0.0".data⟩, some [], false⟩,
         ⟨⟨"mmcfarland".data, "valid".data, "2.0.0".data⟩, some [], false⟩]).2
        = [] ∧
    (publishRepo "/etc/puppet/modules".data "/tmp/pulpXY".data false
        [⟨⟨"jdob".data, "valid".data, "1.0.0".data⟩, some [], false⟩,
         ⟨⟨"mmcfarland".data, "valid".data, "2.0.0".data⟩, some [], false⟩]).1.errors
        = [(⟨"jdob".data, "valid".data, "1.0.0".data⟩, duplicateNameMessage),
           (⟨"mmcfarland".data, "valid".data, "2.0.0".data⟩, duplicateNameMessage)] := by
  have h := claim_C6 "/etc/puppet/modules".data "/tmp/pulpXY".data false
    [⟨⟨"jdob".data, "valid".data, "1.0.0".data⟩, some [], false⟩,
     ⟨⟨"mmcfarland".data, "valid".data, "2.0.0".data⟩, some [], false⟩]
    ⟨⟨"jdob".data, "valid".data, "1.0.0".data⟩, some [], false⟩
    (by decide) (by simp) (by decide)
  refine ⟨h.1, h.2.1, h.2.2.1, ?_⟩
  rw [h.2.2.2]
  decide

/-- Claim C3: the temporary subdirectory of the fallback metadata search
is claimed to be removed in every outcome; the code removes it when the
descriptor is found and when it is missing, but the InvalidTarball path
(archive unopenable) returns without removing it, because the rmtree sits
in a try/finally that begins only after the full extraction.  This
theorem evaluates all three outcomes; the false conjunct witnesses the
leak. -/
theorem claim_C3 :
    (extractNonStandardJson none "puppet-module.tar.gz".data).2 = false ∧
    (extractNonStandardJson none "puppet-module.tar.gz".data).1 =
      Except.error (ExtractionError.invalidTarball "puppet-module.tar.gz".data) ∧
    (extractNonStandardJson
        (some [("jdob-valid-1.0.0/metadata.json".data, "{}".data)])
        "m.tar.gz".data).2 = true ∧
    (extractNonStandardJson
        (some [("jdob-valid-1.0.0/other.txt".data, "x".data)])
        "m.tar.gz".data).2 = true :=
  ⟨rfl, rfl, rfl, rfl⟩

/-- Claim C4: extract_metadata follows the two-path algorithm.  With an
unopenable archive it fails with InvalidTarball on either path; with an
identity it returns the conventional entry when present and falls back to
the full-extraction search exactly when that entry is missing; with no
identity it goes straight to the fallback; the fallback returns the first
file literally named like the descriptor and fails with MissingModuleFile
when no such file exists anywhere. -/
theorem claim_C4 :
    (∀ filename module,
      (extractMetadata none filename module).1 =
        Except.error (ExtractionError.invalidTarball filename)) ∧
    (∀ author name version entries filename ent,
      entries.find? (fun e => e.1 = standardMetadataPath author name version) =
          some ent →
      extractMetadata (some entries) filename (some (author, name, version)) =
        (Except.ok ent.2, none)) ∧
    (∀ author name version entries filename,
      entries.find? (fun e => e.1 = standardMetadataPath author name version) =
          none →
      extractMetadata (some entries) filename (some (author, name, version)) =
        ((extractNonStandardJson (some entries) filename).1,
          some (extractNonStandardJson (some entries) filename).2)) ∧
    (∀ tar filename,
      extractMetadata tar filename none =
        ((extractNonStandardJson tar filename).1,
          some (extractNonStandardJson tar filename).2)) ∧
    (∀ entries filename ent,
      entries.find?
          (fun e => (pySplit e.1).getLastD [] = MODULE_METADATA_FILENAME) =
          some ent →
      (extractNonStandardJson (some entries) filename).1 = Except.ok ent.2) ∧
    (∀ entries filename,
      entries.find?
          (fun e => (pySplit e.1).getLastD [] = MODULE_METADATA_FILENAME) =
          none →
      (extractNonStandardJson (some entries) filename).1 =
        Except.error (ExtractionError.missingModuleFile filename)) := by
  refine ⟨?_, ?_, ?_, ?_, ?_, ?_⟩
  · intro filename module
    cases module with
    | none => rfl
    | some m =>
      rcases m with ⟨a, n, v⟩
      rfl
  · intro author name version entries filename ent h
    simp [extractMetadata, extractJson, h]
  · intro author name version entries filename h
    simp [extractMetadata, extractJson, h]
  · intro tar filename
    rfl
  · intro entries filename ent h
    simp only [List.getLastD_eq_getLast?] at h
    simp [extractNonStandardJson, findMetadataEntry, h]
  · intro entries filename h
    simp only [List.getLastD_eq_getLast?] at h
    simp [extractNonStandardJson, findMetadataEntry, h]

/-- Witness for C4: the three archive shapes of the spec example — the
standard layout, a nested non-standard layout, and one with no descriptor
anywhere — exercised at concrete inputs through the theorem. -/
theorem claim_C4_witness :
    (extractMetadata none "m.tar.gz".data
        (some ("jdob".data, "valid".data, "1.0.0".data))).1 =
      Except.error (ExtractionError.invalidTarball "m.tar.gz".data) ∧
    extractMetadata
        (some [("jdob-valid-1.0.0/metadata.json".data, "{}".data)])
        "m.tar.gz".data (some ("jdob".data, "valid".data, "1.0.0".data)) =
      (Except.ok "{}".data, none) ∧
    extractMetadata
        (some [("deep/nested/metadata.json".data, "{1}".data)])
        "m.tar.gz".data (some ("jdob".data, "valid".data, "1.0.0".data)) =
      ((extractNonStandardJson
          (some [("deep/nested/metadata.json".data, "{1}".data)])
          "m.tar.gz".data).1,
        some (extractNonStandardJson
          (some [("deep/nested/metadata.json".data, "{1}".data)])
          "m.tar.gz".data).2) ∧
    (extractNonStandardJson
        (some [("deep/nested/metadata.json".data, "{1}".data)])
        "m.tar.gz".data).1 = Except.ok "{1}".data ∧
    (extractNonStandardJson
        (some [("a/b.txt".data, "x".data)]) "m.tar.gz".data).1 =
      Except.error (ExtractionError.missingModuleFile "m.tar.gz".data) :=
  ⟨claim_C4.1 "m.tar.gz".data (some ("jdob".data, "valid".data, "1.0.0".data)),
   claim_C4.2.1 "jdob".data "valid".data "1.0.0".data _ _
     ("jdob-valid-1.0.0/metadata.json".data, "{}".data) (by decide),
   claim_C4.2.2.1 "jdob".data "valid".data "1.0.0".data _ _ (by decide),
   claim_C4.2.2.2.2.1 _ "m.tar.gz".data
     ("deep/nested/metadata.json".data, "{1}".data) (by decide),
   claim_C4.2.2.2.2.2 _ "m.tar.gz".data (by decide)⟩

/-- Claim C5, counterexample: the checksum stored in the dependency-index
record is not the one calculate_checksum produces for the same file
content — the record streams the file through md5 while
calculate_checksum streams it through the configured default (a 256-bit
digest, sha256). -/
theorem claim_C5_counterexample :
    depDataChecksum [0] ≠ calculate_checksum [0] := by
  rw [depDataChecksum_eq, calculate_checksum_eq]
  intro h
  have := congrArg HexDigest.alg h
  simp at this

/-- Claim C5 as amended: the per-version checksum stored in the
dependency-index record is the md5 digest of the full file content (the
128-byte chunking accumulates to the whole content), while
calculate_checksum produces the configured-default (sha256) digest of the
same content, so the stored checksum never equals the calculate_checksum
one. -/
theorem claim_C5_amended (content : List Nat) :
    depDataChecksum content = ⟨"md5".data, content⟩ ∧
    calculate_checksum content = ⟨DEFAULT_HASHLIB, content⟩ ∧
    depDataChecksum content ≠ calculate_checksum content := by
  refine ⟨depDataChecksum_eq content, calculate_checksum_eq content, ?_⟩
  rw [depDataChecksum_eq, calculate_checksum_eq]
  intro h
  have := congrArg HexDigest.alg h
  simp at this

/-- Claim C7: after the dependency-index build, the value held under each
author/name key is the list of records — file path, version, declared
dependencies, streamed checksum — of exactly the presented modules with
that key, in presentation order, and distinct keys hold independent
lists. -/
theorem claim_C7 (repoPath : PyStr) (modules : List PubModule) (k : PyStr) :
    generateDependencyData repoPath modules k =
      (modules.filter (fun m => depKey m = k)).map (depRecord repoPath) := by
  unfold generateDependencyData
  rw [generateDependencyData_go]
  rfl

/-- Claim C9: when the MODULES stage body completes without raising, the
stage ends in SUCCESS regardless of how many individual link failures
occurred; every module whose link failed is recorded individually, in
order, and every other module is counted finished — no link failure
aborts the remaining modules. -/
theorem claim_C9 (linkFails : PubModule → Bool) (modules : List PubModule) :
    (modulesStep false linkFails modules).state = StageState.success ∧
    (modulesStep false linkFails modules).progress.failedModules =
      modules.filter (fun m => linkFails m) ∧
    (modulesStep false linkFails modules).progress.finishedCount =
      (modules.filter (fun m => ¬ linkFails m)).length ∧
    (modulesStep false linkFails modules).progress.totalCount =
      modules.length ∧
    (modulesStep false linkFails modules).returnedModules = some modules := by
  unfold modulesStep symlinkModules
  rw [if_neg (by simp)]
  rw [symlinkModules_go]
  refine ⟨rfl, by simp, by simp, rfl, rfl⟩

/-- Claim C10, counterexample: with destination the filesystem root "/",
the entry "." normalizes to exactly the destination yet is judged safe
(the slash-terminated destination is already a prefix of the normalized
result), so the claim that such an entry is always judged unsafe fails at
this input. -/
theorem claim_C10_counterexample :
    pyNormpath (pyJoin "/".data ".".data) = pyNormpath "/".data ∧
    pyNormpath "/".data = "/".data ∧
    archivePathsAreSafe "/".data [".".data] = true :=
  ⟨by decide, by decide, by decide⟩

/-- Claim C10 as amended: for every destination other than the all-slash
roots "/" and "//", an archive entry whose normalized absolute join
equals the normalized destination itself is judged unsafe, and an archive
containing such an entry fails the path-safety check. -/
theorem claim_C10_amended (dest e : PyStr) (names : List PyStr)
    (hne : dest ≠ []) (h1 : dest ≠ "/".data) (h2 : dest ≠ "//".data)
    (hmem : e ∈ names)
    (hnorm : pyNormpath (pyJoin dest e) = pyNormpath dest) :
    archivePathsAreSafe dest names = false := by
  rw [archivePathsAreSafe_eq_all dest names hne]
  have hse := safeEntry_self_false dest e h1 h2 hnorm
  cases hall : names.all (safeEntry dest) with
  | false => rfl
  | true =>
    have hthis := List.all_eq_true.1 hall e hmem
    rw [hse] at hthis
    exact absurd hthis (by decide)

/-- Witness for the amended C10: a real destination with the entry ".",
which normalizes to the destination itself and is rejected. -/
theorem claim_C10_amended_witness :
    archivePathsAreSafe "/etc/puppet/modules".data [".".data] = false :=
  claim_C10_amended "/etc/puppet/modules".data ".".data [".".data]
    (by decide) (by decide) (by decide) (List.mem_singleton.mpr rfl) (by decide)

/-- Claim C8: when the extraction of a unit produced exactly one distinct
top-level entry t, _rename_directory moves the directory at the
normalized join of t to the one named by the unit (and leaves it in place
exactly when the two normalized paths already coincide); the final
installed directory path ends in exactly the unit name, for any
well-formed name; when the archive produced two or more distinct
top-level entries the call fails with the ValueError, and such a unit is
reported as an individual error by the publish run. -/
theorem claim_C8 :
    (∀ unitName dest names t,
      (names.map (topComponent (withSlash dest))).dedup = [t] →
      renameDirectory unitName dest names =
        (if pyNormpath (pyJoin (withSlash dest) t) =
            pyNormpath (pyJoin (withSlash dest) unitName)
         then RenameResult.inPlace
         else RenameResult.moved (pyNormpath (pyJoin (withSlash dest) t))
           (pyNormpath (pyJoin (withSlash dest) unitName)))) ∧
    (∀ dest unitName, unitName ≠ [] → '/' ∉ unitName →
      unitName ≠ ".".data → unitName ≠ "..".data →
      lastComponent (pyNormpath (pyJoin (withSlash dest) unitName)) =
        unitName) ∧
    (∀ names dest unitName,
      2 ≤ (names.map (topComponent (withSlash dest))).dedup.length →
      renameDirectory unitName dest names = RenameResult.tooMany) ∧
    (∀ destination tempDest units u names,
      destination ≠ [] → findDuplicateNames units = [] →
      checkForUnsafeArchivePaths units destination = [] →
      u ∈ units → u.archive = some names → u.extractFails = false →
      renameDirectory u.key.name tempDest names = RenameResult.tooMany →
      (u.key, tooManyMessage) ∈
        (publishRepo destination tempDest false units).1.errors) := by
  refine ⟨?_, ?_, ?_, ?_⟩
  · intro unitName dest names t h
    simp only [renameDirectory, h]
    by_cases heq : pyNormpath (pyJoin (withSlash dest) t) =
        pyNormpath (pyJoin (withSlash dest) unitName)
    · simp [heq]
    · simp [heq]
  · intro dest unitName h1 h2 h3 h4
    exact lastComponent_normpath_join dest unitName h1 h2 h3 h4
  · intro names dest unitName h
    simp only [renameDirectory]
    rw [if_pos (by omega)]
  · intro destination tempDest units u names hne hdup hsafe hu ha hf hr
    rw [publishRepo_extraction_errors destination tempDest units hne hdup hsafe]
    exact extractFold_tooMany_mem tempDest units _ u names hu ha hf hr

/-- Witness for C8: the spec example unit named valid whose archive
top-level directory is jdob-valid-1.0.0 is renamed to exactly valid under
the staging directory; a two-top-level archive raises the ValueError and
the unit is reported. -/
theorem claim_C8_witness :
    renameDirectory "valid".data "/tmp/pulpXY".data
        ["jdob-valid-1.0.0/metadata.json".data,
         "jdob-valid-1.0.0/manifests/init.pp".data] =
      RenameResult.moved "/tmp/pulpXY/jdob-valid-1.0.0".data
        "/tmp/pulpXY/valid".data ∧
    lastComponent (pyNormpath (pyJoin (withSlash "/tmp/pulpXY".data)
        "valid".data)) = "valid".data ∧
    renameDirectory "valid".data "/tmp/pulpXY".data
        ["a/x".data, "b/y".data] = RenameResult.tooMany ∧
    ((⟨"jdob".data, "valid".data, "1.0.0".data⟩ : UnitKey), tooManyMessage) ∈
      (publishRepo "/etc/puppet/modules".data "/tmp/pulpXY".data false
        [⟨⟨"jdob".data, "valid".data, "1.0.0".data⟩,
          some ["a/x".data, "b/y".data], false⟩]).1.errors := by
  refine ⟨?_, ?_, ?_, ?_⟩
  · have h := claim_C8.1 "valid".data "/tmp/pulpXY".data
      ["jdob-valid-1.0.0/metadata.json".data,
       "jdob-valid-1.0.0/manifests/init.pp".data]
      "jdob-valid-1.0.0".data (by decide)
    rw [if_neg (by decide)] at h
    exact h
  · exact claim_C8.2.1 "/tmp/pulpXY".data "valid".data (by decide) (by decide)
      (by decide) (by decide)
  · exact claim_C8.2.2.1 ["a/x".data, "b/y".data] "/tmp/pulpXY".data
      "valid".data (by decide)
  · exact claim_C8.2.2.2 "/etc/puppet/modules".data "/tmp/pulpXY".data
      [⟨⟨"jdob".data, "valid".data, "1.0.0".data⟩,
        some ["a/x".data, "b/y".data], false⟩]
      ⟨⟨"jdob".data, "valid".data, "1.0.0".data⟩,
        some ["a/x".data, "b/y".data], false⟩
      ["a/x".data, "b/y".data]
      (by decide) (by decide) (by decide) (List.mem_singleton.mpr rfl) rfl rfl
      (by decide)

end PulpPuppet
